import Mathlib

/-!
Verification development for the AI-panel content-extraction and caching
pipeline of the reader-plus repository (`src/AIPanel.tsx`).

The TypeScript code is shallowly embedded as executable Lean functions.
Modelling conventions:

* JavaScript strings are modelled by Lean `String` (a list of Unicode scalar
  values).  JavaScript indexes strings by UTF-16 code units; on strings of
  basic-multilingual-plane characters (all strings manipulated here) the two
  coincide, so `slice`, `length` and `charCodeAt` are modelled by the
  corresponding operations on the character list.
* The DOM and the EPUB rendering engine are external collaborators; an
  extraction run is a pure function of the data the engine hands back
  (`RenderEnv` below): the candidate block elements of the document body in
  document order, the body text, the resolved viewport boundary blocks, the
  spine index and the book id.
* JavaScript number arithmetic in the hash (`(h * 131 + code) >>> 0`) stays
  below 2^53 before truncation, so it is exact and is modelled by natural
  number arithmetic with an explicit `% 2^32`.
* The asynchronous key-value store (localforage) is modelled by an
  association list together with an explicit trace of store operations, so
  that read-only-ness of lookups is a provable statement.
-/

namespace ReaderPlus

/-- Whitespace recognised by JavaScript: the regex character class `\s`,
which is also the set trimmed by `String.prototype.trim`. -/
def jsWhitespaceChar (c : Char) : Bool :=
  let n := c.toNat
  n == 9 || n == 10 || n == 11 || n == 12 || n == 13 ||
  n == 32 || n == 160 || n == 0x1680 ||
  (decide (0x2000 ≤ n) && decide (n ≤ 0x200a)) ||
  n == 0x2028 || n == 0x2029 || n == 0x202f ||
  n == 0x205f || n == 0x3000 || n == 0xfeff

/-- Drop leading and trailing JavaScript whitespace from a character list. -/
def trimChars (l : List Char) : List Char :=
  ((l.dropWhile jsWhitespaceChar).reverse.dropWhile jsWhitespaceChar).reverse

/-- JavaScript `String.prototype.trim`. -/
def jsTrim (s : String) : String :=
  String.mk (trimChars s.data)

/-- One pass of `text.replace(/\s+/g, ' ')`: every maximal run of whitespace
characters becomes a single space.  The boolean flag records whether the
previous character was part of a whitespace run (whose space has already been
emitted). -/
def replaceWsRunsAux : Bool → List Char → List Char
  | _, [] => []
  | inRun, c :: cs =>
    if jsWhitespaceChar c then
      if inRun then replaceWsRunsAux true cs
      else ' ' :: replaceWsRunsAux true cs
    else c :: replaceWsRunsAux false cs

/-- `normalizeWhitespace` from AIPanel.tsx (line 161):
`text.replace(/\s+/g, ' ').trim()`. -/
def normalizeWhitespace (s : String) : String :=
  String.mk (trimChars (replaceWsRunsAux false s.data))

/-- JavaScript `s.slice(0, n)` for nonnegative `n`. -/
def jsSlice (s : String) (n : Nat) : String :=
  String.mk (s.data.take n)

/-- JavaScript `s.slice(n)` for nonnegative `n`. -/
def jsDrop (s : String) (n : Nat) : String :=
  String.mk (s.data.drop n)

/-- JavaScript `s.startsWith(p)`. -/
def jsStartsWith (s p : String) : Bool :=
  p.data.isPrefixOf s.data

/-- JavaScript `Array.prototype.join(sep)`. -/
def joinWith (sep : String) : List String → String
  | [] => ""
  | [t] => t
  | t :: u :: rest => t ++ sep ++ joinWith sep (u :: rest)

/-- JavaScript `h.toString(16)` for an unsigned 32-bit value: lowercase
hexadecimal rendering. -/
def toHex (n : Nat) : String :=
  (Nat.toDigits 16 n).asString

/-- `stableHash` from AIPanel.tsx (lines 311-317): a multiply-and-add rolling
hash, base 131, over the character codes, truncated to an unsigned 32-bit
integer at every step (`>>> 0`), rendered in hexadecimal. -/
def stableHash (s : String) : String :=
  toHex (s.data.foldl (fun h c => (h * 131 + c.toNat) % 4294967296) 0)

/-- `CONTEXT_TOKENS_LIMIT` from AIPanel.tsx (line 188). -/
def CONTEXT_TOKENS_LIMIT : Nat := 131072

/-- `TOKEN_TO_CHAR_APPROX` from AIPanel.tsx (line 189). -/
def TOKEN_TO_CHAR_APPROX : Nat := 3

/-- `charBudgetCap` from AIPanel.tsx (line 191):
`Math.floor(CONTEXT_TOKENS_LIMIT * TOKEN_TO_CHAR_APPROX * 0.7)`.  The safety
factor 0.7 is the rational 7/10 and the product is below 2^53, so the
floating-point floor equals the integer division by 10. -/
def charBudgetCap : Nat := CONTEXT_TOKENS_LIMIT * TOKEN_TO_CHAR_APPROX * 7 / 10

/-- `fallbackMaxChars` from AIPanel.tsx (line 192). -/
def fallbackMaxChars : Nat := min charBudgetCap 20000

/-- `charBudget` from AIPanel.tsx (line 268): `Math.min(charBudgetCap, 40000)`. -/
def charBudget : Nat := min charBudgetCap 40000

/-- `maxParas` from AIPanel.tsx (line 269). -/
def maxParas : Nat := 300

/-- Mutable state of the greedy window selection (lines 270-272 of
AIPanel.tsx): running character total, selected texts in push order, selected
indices in push order. -/
structure SelState where
  total : Nat
  texts : List String
  selectedIdxs : List Nat
deriving DecidableEq, Repr

/-- `pushIdx` from AIPanel.tsx (lines 274-286), acting on the selection
state.  `ib` is the in-between paragraph sequence (raw text contents).  A
failed push leaves the state unchanged. -/
def pushIdx (ib : List String) (budget mp : Nat) (st : SelState) (idx : Nat) : SelState :=
  if ib.length ≤ idx then st
  else if idx ∈ st.selectedIdxs then st
  else if normalizeWhitespace (ib.getD idx "") = "" then st
  else if mp ≤ st.texts.length then st
  else if 2 ≤ st.texts.length ∧
      budget < st.total + (normalizeWhitespace (ib.getD idx "")).length +
        (if st.texts ≠ [] then 2 else 0) then st
  else
    ⟨st.total + (normalizeWhitespace (ib.getD idx "")).length +
        (if st.texts ≠ [] then 2 else 0),
      st.texts ++ [normalizeWhitespace (ib.getD idx "")],
      st.selectedIdxs ++ [idx]⟩

/-- The symmetric expansion loop of AIPanel.tsx (lines 293-303).  The loop
variable `step` increases by one per iteration and the loop exits as soon as
`step ≥ ib.length`, so `ib.length` units of fuel always suffice; the fuel
argument only makes the recursion structural. -/
def expand (ib : List String) (budget mp : Nat) : Nat → SelState → Nat → SelState
  | 0, st, _ => st
  | fuel + 1, st, step =>
    if step < ib.length then
      if st.texts.length < mp ∧ st.total < budget then
        if step ≤ ib.length - 1 - step then
          expand ib budget mp fuel
            (if ib.length - 1 - step = step then pushIdx ib budget mp st step
             else pushIdx ib budget mp (pushIdx ib budget mp st step) (ib.length - 1 - step))
            (step + 1)
        else st
      else st
    else st

/-- The whole greedy window selection of AIPanel.tsx (lines 270-303): force
the first and the last in-between paragraph (the last only when distinct),
then expand alternately from both ends toward the middle. -/
def selectWindow (ib : List String) : SelState :=
  let st0 := pushIdx ib charBudget maxParas ⟨0, [], []⟩ 0
  let st1 := if 1 < ib.length then pushIdx ib charBudget maxParas st0 (ib.length - 1) else st0
  expand ib charBudget maxParas ib.length st1 1

/-- The data the EPUB rendering engine hands back for one extraction run
(AIPanel.tsx lines 202-231).  `blocks` are the text contents of the elements
of the document body matching `PARAGRAPH_SELECTOR`, in document order;
`startBlockIdx` / `endBlockIdx` are the positions among those blocks of the
nearest block-level elements enclosing the viewport start / end boundary
(`none` when the lookup failed); `hasRendition`, `hasContents` and
`hasDocBody` model the three early-exit guards. -/
structure RenderEnv where
  hasRendition : Bool
  hasContents : Bool
  hasDocBody : Bool
  blocks : List String
  bodyText : String
  startBlockIdx : Option Nat
  endBlockIdx : Option Nat
  spineIndex : Option Nat
  bookId : Option String
deriving DecidableEq, Repr

/-- Result record of `extractPageContent` (AIPanel.tsx lines 195-200). -/
structure ExtractResult where
  content : String
  cacheKey : Option String
  groupPrefixOpt : Option String
  sigSource : Option String
deriving DecidableEq, Repr

/-- `collectParagraphElements` from AIPanel.tsx (lines 177-185): keep the
candidate blocks whose normalised text has at least 20 characters, paired
with their position in the full block sequence (element identity is modelled
by that position). -/
def collectParagraphs (blocks : List String) : List (Nat × String) :=
  blocks.enum.filter (fun p => decide (20 ≤ (normalizeWhitespace p.2).length))

/-- Resolution of an engine-provided boundary index to a concrete block. -/
def lookupBlock (blocks : List String) (i : Option Nat) : Option (Nat × String) :=
  i.bind fun j => (blocks.get? j).map fun t => (j, t)

/-- The boundary fallbacks of AIPanel.tsx (lines 241-250): when both
boundaries are missing, the middle element of the collected paragraph list
serves as both; when exactly one is missing, it is copied from the other. -/
def resolveBoundaries (paragraphs : List (Nat × String)) :
    Option (Nat × String) → Option (Nat × String) → Option ((Nat × String) × (Nat × String))
  | none, none => (paragraphs.get? (paragraphs.length / 2)).map fun m => (m, m)
  | none, some e => some (e, e)
  | some s, none => some (s, s)
  | some s, some e => some (s, e)

/-- The in-between set of AIPanel.tsx (lines 253-264): the collected
paragraphs intersecting the document range spanning the two boundary blocks
(in a flat document, those whose position lies between the boundary
positions), seeded with the start block when the intersection is empty. -/
def buildInBetween (paragraphs : List (Nat × String)) (s e : Nat × String) :
    List (Nat × String) :=
  let lo := min s.1 e.1
  let hi := max s.1 e.1
  let l := paragraphs.filter (fun p => decide (lo ≤ p.1) && decide (p.1 ≤ hi))
  if l.isEmpty then [s] else l

/-- `book?.id || 'unknown'` (AIPanel.tsx line 318). -/
def bookIdStr (env : RenderEnv) : String :=
  match env.bookId with
  | some b => if b = "" then "unknown" else b
  | none => "unknown"

/-- The spine part of the key (AIPanel.tsx lines 222 and 319):
`String(loc.start.index)` when the index is present, else `'0'`. -/
def spinePartStr (env : RenderEnv) : String :=
  match env.spineIndex with
  | some n => Nat.repr n
  | none => "0"

/-- `paragraphs.findIndex((el) => el === startBlock)` (lines 320-321):
position of a boundary block in the collected paragraph list, `-1` when it is
not a qualifying paragraph. -/
def findBlockIdx (paragraphs : List (Nat × String)) (b : Nat × String) : Int :=
  match paragraphs.findIdx? (fun p => p.1 == b.1) with
  | some j => (j : Int)
  | none => -1

/-- The group prefix (AIPanel.tsx line 325). -/
def groupPrefixOf (env : RenderEnv) : String :=
  "ai-summary:" ++ bookIdStr env ++ ":" ++ spinePartStr env ++ ":"

/-- `centerPart` (AIPanel.tsx line 322). -/
def centerPartStr (paragraphs : List (Nat × String)) (sB eB : Nat × String) : String :=
  let sI := findBlockIdx paragraphs sB
  let eI := findBlockIdx paragraphs eB
  Int.repr (min sI eI) ++ "-" ++ Int.repr (max sI eI)

/-- The exact cache key (AIPanel.tsx line 324). -/
def cacheKeyOf (env : RenderEnv) (paragraphs : List (Nat × String))
    (sB eB : Nat × String) (sig : String) : String :=
  groupPrefixOf env ++ centerPartStr paragraphs sB eB ++ ":" ++ stableHash sig

/-- The signature source (AIPanel.tsx lines 307-310): first 120 normalised
characters of the first in-between paragraph, a `|` separator, first 120
normalised characters of the last in-between paragraph. -/
def sigSourceOf (paragraphs : List (Nat × String)) (sB eB : Nat × String) : String :=
  let inB := buildInBetween paragraphs sB eB
  jsSlice (normalizeWhitespace (inB.headD (0, "")).2) 120 ++ "|" ++
    jsSlice (normalizeWhitespace (inB.getLastD (0, "")).2) 120

/-- The joined window content (AIPanel.tsx line 305). -/
def contextOf (paragraphs : List (Nat × String)) (sB eB : Nat × String) : String :=
  joinWith "\n\n" (selectWindow ((buildInBetween paragraphs sB eB).map Prod.snd)).texts

/-- The degraded full-body fallback (AIPanel.tsx lines 236, 248, 330):
normalised body text truncated to `cap` characters, replaced by an explicit
no-content message when empty. -/
def bodyFallback (env : RenderEnv) (cap : Nat) : String :=
  let fb := jsSlice (normalizeWhitespace env.bodyText) cap
  if fb = "" then "无法提取有效内容" else fb

/-- `extractPageContent` from AIPanel.tsx (lines 202-338) as a pure function
of the engine snapshot. -/
def extractPageContent (env : RenderEnv) : ExtractResult :=
  if env.hasRendition = false then ⟨"", none, none, none⟩
  else if env.hasContents = false then ⟨"无法提取页面内容", none, none, none⟩
  else if env.hasDocBody = false then ⟨"无法获取页面文档", none, none, none⟩
  else if (collectParagraphs env.blocks).isEmpty then ⟨bodyFallback env 2000, none, none, none⟩
  else
    match resolveBoundaries (collectParagraphs env.blocks)
        (lookupBlock env.blocks env.startBlockIdx)
        (lookupBlock env.blocks env.endBlockIdx) with
    | none => ⟨bodyFallback env 2000, none, none, none⟩
    | some (sB, eB) =>
      if 50 ≤ (contextOf (collectParagraphs env.blocks) sB eB).length then
        ⟨contextOf (collectParagraphs env.blocks) sB eB,
          some (cacheKeyOf env (collectParagraphs env.blocks) sB eB
            (sigSourceOf (collectParagraphs env.blocks) sB eB)),
          some (groupPrefixOf env),
          some (sigSourceOf (collectParagraphs env.blocks) sB eB)⟩
      else
        ⟨bodyFallback env fallbackMaxChars, none, some (groupPrefixOf env),
          some (sigSourceOf (collectParagraphs env.blocks) sB eB)⟩

/-- Operations issued against the external key-value store (localforage). -/
inductive StoreOp where
  | get (k : String)
  | keys
  | set (k v : String)
  | remove (k : String)
deriving DecidableEq, Repr

/-- The persistent store, as an association list with unique keys. -/
abbrev Store := List (String × String)

/-- `localforage.getItem`. -/
def storeGet (store : Store) (k : String) : Option String :=
  (List.find? (fun p => p.1 == k) store).map Prod.snd

/-- `localforage.keys()`. -/
def storeKeys (store : Store) : List String :=
  List.map Prod.fst store

/-- `localforage.setItem`: overwrite the first binding or append. -/
def storeSet (store : Store) (k v : String) : Store :=
  if List.any store (fun p => p.1 == k) then
    List.map (fun p => if p.1 == k then (k, v) else p) store
  else store ++ [(k, v)]

/-- Splitting accumulator: `a.split(/\s+/).filter(Boolean)` — the maximal
non-whitespace runs of the string.  `cur` is the current word, reversed. -/
def wordsAux : List Char → List Char → List String
  | cur, [] => if cur.isEmpty then [] else [String.mk cur.reverse]
  | cur, c :: cs =>
    if jsWhitespaceChar c then
      if cur.isEmpty then wordsAux [] cs
      else String.mk cur.reverse :: wordsAux [] cs
    else wordsAux (c :: cur) cs

/-- `a.split(/\s+/).filter(Boolean)` (AIPanel.tsx lines 535-536). -/
def jsWords (s : String) : List String :=
  wordsAux [] s.data

/-- `similarity` from AIPanel.tsx (lines 534-541): word-level Jaccard
similarity of the whitespace-split word sets of the two strings, as an exact
rational (JavaScript computes it in floating point; the comparison against
0.8 = 4/5 is modelled exactly). -/
def similarity (a b : String) : ℚ :=
  let setA := (jsWords a).dedup
  let setB := (jsWords b).dedup
  let inter := (setA.filter (fun t => decide (t ∈ setB))).length
  let union := setA.length + setB.length - inter
  if union = 0 then 0 else mkRat inter union

/-- Running best candidate of the fuzzy scan (lines 542-543). -/
structure FuzzyBest where
  bestKey : Option String
  bestScore : ℚ
deriving Repr

/-- One iteration of the candidate loop (lines 544-554): read the stored
text for key `k`, skip missing or empty values, score the first 400
characters of the current content against the first 400 characters of the
stored text, and keep the key when its score is strictly better. -/
def scanStep (store : Store) (content : String) (acc : FuzzyBest) (k : String) :
    FuzzyBest :=
  match storeGet store k with
  | none => acc
  | some v =>
    if v = "" then acc
    else if acc.bestScore < similarity (jsSlice content 400) (jsSlice v 400) then
      ⟨some k, similarity (jsSlice content 400) (jsSlice v 400)⟩
    else acc

/-- The candidate loop of the fuzzy lookup over the group keys in order. -/
def fuzzyScan (store : Store) (content : String) : List String → FuzzyBest → FuzzyBest
  | [], acc => acc
  | k :: ks, acc => fuzzyScan store content ks (scanStep store content acc k)

/-- The keys of the store sharing the group prefix (line 533). -/
def groupKeysOf (store : Store) (gp : String) : List String :=
  (storeKeys store).filter (fun k => jsStartsWith k gp)

/-- Store operations performed by the candidate scan: one `keys()` followed
by one `getItem` per group key, in order. -/
def fuzzyScanOps (store : Store) (gp : String) : List StoreOp :=
  StoreOp.keys :: (groupKeysOf store gp).map StoreOp.get

/-- The fuzzy cache lookup of AIPanel.tsx (lines 531-563), returning the hit
(if any) together with the trace of store operations it performs.  The best
candidate is accepted exactly when its score reaches 0.8 = 4/5 and it still
reads back as a non-empty string. -/
def fuzzyLookup (store : Store) (gp content : String) :
    Option (String × String) × List StoreOp :=
  match (fuzzyScan store content (groupKeysOf store gp) ⟨none, 0⟩).bestKey with
  | some bk =>
    if mkRat 4 5 ≤ (fuzzyScan store content (groupKeysOf store gp) ⟨none, 0⟩).bestScore then
      match storeGet store bk with
      | some v =>
        if v = "" then (none, fuzzyScanOps store gp ++ [StoreOp.get bk])
        else (some (bk, v), fuzzyScanOps store gp ++ [StoreOp.get bk])
      | none => (none, fuzzyScanOps store gp ++ [StoreOp.get bk])
    else (none, fuzzyScanOps store gp)
  | none => (none, fuzzyScanOps store gp)

/-- Outcome of one debounced page-change handling run. -/
inductive FlowOutcome where
  | exactHit (v : String)
  | fuzzyHit (k v : String)
  | generated (g : String)
  | refused
deriving DecidableEq, Repr

/-- Result of one page-change handling run: the outcome, the trace of store
operations, and the store afterwards. -/
structure FlowResult where
  outcome : FlowOutcome
  ops : List StoreOp
  finalStore : Store
deriving Repr

/-- The generation step (`generateSummary`, line 351): refused when the
content is empty, otherwise it produces the streamed text `g`. -/
def genOutcome (res : ExtractResult) (g : String) : FlowOutcome :=
  if res.content = "" then FlowOutcome.refused else FlowOutcome.generated g

/-- Generation followed by the deferred cache write of AIPanel.tsx (lines
566-577).  The `setTimeout` callback reads the React state variable
`completion` captured by the effect closure when the page-change effect ran
(`completionAtRender`), not the text accumulated by the generation it
follows; it writes that captured value under the exact key when it is
non-empty. -/
def genAndWrite (store : Store) (k : String) (ops0 : List StoreOp)
    (res : ExtractResult) (g completionAtRender : String) : FlowResult :=
  if completionAtRender ≠ "" then
    ⟨genOutcome res g, ops0 ++ [StoreOp.set k completionAtRender],
      storeSet store k completionAtRender⟩
  else ⟨genOutcome res g, ops0, store⟩

/-- The cache-resolution and generation flow of the page-change handler
(AIPanel.tsx lines 507-577): exact lookup when a key was computed, fuzzy
lookup when no key but a group prefix and signature source exist, otherwise
generation; generation is followed by the deferred write (only under an
exact key). -/
def pageFlow (store : Store) (res : ExtractResult) (genText completionAtRender : String) :
    FlowResult :=
  match res.cacheKey with
  | some k =>
    match storeGet store k with
    | some v =>
      if v ≠ "" then ⟨FlowOutcome.exactHit v, [StoreOp.get k], store⟩
      else genAndWrite store k [StoreOp.get k] res genText completionAtRender
    | none => genAndWrite store k [StoreOp.get k] res genText completionAtRender
  | none =>
    match res.groupPrefixOpt, res.sigSource with
    | some gp, some sg =>
      if gp ≠ "" ∧ sg ≠ "" then
        match (fuzzyLookup store gp res.content).1 with
        | some (bk, v) =>
          ⟨FlowOutcome.fuzzyHit bk v, (fuzzyLookup store gp res.content).2, store⟩
        | none =>
          ⟨genOutcome res genText, (fuzzyLookup store gp res.content).2, store⟩
      else ⟨genOutcome res genText, [], store⟩
    | _, _ => ⟨genOutcome res genText, [], store⟩

/-- The AI configuration read from storage (`aiStorage.getAll`). -/
structure AiConfig where
  apiKey : String
  baseUrl : String
  model : String
deriving DecidableEq, Repr

/-- Configuration status computed by `checkAiConfig` (AIPanel.tsx lines
132-145). -/
structure AiConfigStatus where
  configured : Bool
  missing : List String
deriving DecidableEq, Repr

/-- `checkAiConfig` from AIPanel.tsx (lines 133-145): each required item
whose trimmed value is empty is reported missing, in the order API Key, Base
URL, Model; the panel is configured exactly when nothing is missing. -/
def checkAiConfig (c : AiConfig) : AiConfigStatus :=
  let missing :=
    (if jsTrim c.apiKey = "" then ["API Key"] else []) ++
    (if jsTrim c.baseUrl = "" then ["Base URL"] else []) ++
    (if jsTrim c.model = "" then ["Model"] else [])
  ⟨missing.isEmpty, missing⟩

/-- `config.baseUrl.replace(/\/$/, '')` (line 400): remove one trailing
slash. -/
def stripTrailingSlash (s : String) : String :=
  if s.data.getLast? = some '/' then String.mk (s.data.dropLast) else s

/-- The outgoing completion request (line 400-414), as far as the claims
need it: target URL and model.  `generateSummary` refuses (no request object
is ever built, hence no network call) when the content is empty or the
configuration is incomplete (line 351). -/
structure ChatRequest where
  url : String
  model : String
deriving DecidableEq, Repr

/-- The guard of `generateSummary` (AIPanel.tsx line 351) together with the
request construction (line 400). -/
def generateSummaryRequest (content : String) (st : AiConfigStatus) (c : AiConfig) :
    Option ChatRequest :=
  if content = "" ∨ st.configured = false then none
  else some ⟨stripTrailingSlash c.baseUrl ++ "/chat/completions", c.model⟩

/-- The configuration-incomplete notice rendered by the panel (AIPanel.tsx
lines 667-689): shown exactly when the configuration is incomplete, listing
the missing items joined by a comma. -/
def panelMissingNotice (st : AiConfigStatus) : Option String :=
  if st.configured then none
  else some ("缺少配置项：" ++ joinWith ", " st.missing)

/-- Result of handing one `data:` payload to `JSON.parse` plus the field
access `choices?.[0]?.delta?.content` — external to the embedding, so
modelled abstractly: the payload is either malformed (parse throws) or
parses with an optional delta string. -/
inductive JsonParseResult where
  | malformed
  | parsed (delta : Option String)
deriving DecidableEq, Repr

/-- The generic retry message shown on generation failure (line 472). -/
def retryMsg : String := "生成总结时出现错误，请重试。"

/-- Per-line handling of the stream consumer (AIPanel.tsx lines 441-461):
trim the line; skip blanks and the `data: [DONE]` sentinel; for `data: `
lines, parse the payload — a malformed payload is logged and skipped, a
truthy delta is appended to the accumulator; all other lines are ignored. -/
def processLine (parse : String → JsonParseResult) (acc line : String) : String :=
  let trimmed := jsTrim line
  if trimmed = "" ∨ trimmed = "data: [DONE]" then acc
  else if jsStartsWith trimmed "data: " then
    match parse (jsDrop trimmed 6) with
    | JsonParseResult.malformed => acc
    | JsonParseResult.parsed none => acc
    | JsonParseResult.parsed (some d) => if d = "" then acc else acc ++ d
  else acc

/-- The stream-consumption loop (lines 433-462) over the received lines in
arrival order. -/
def consumeLines (parse : String → JsonParseResult) (acc : String)
    (lines : List String) : String :=
  lines.foldl (processLine parse) acc

/-- The delta a single line contributes, if any (the appended suffix of
`processLine`). -/
def lineDelta (parse : String → JsonParseResult) (line : String) : Option String :=
  let trimmed := jsTrim line
  if trimmed = "" ∨ trimmed = "data: [DONE]" then none
  else if jsStartsWith trimmed "data: " then
    match parse (jsDrop trimmed 6) with
    | JsonParseResult.malformed => none
    | JsonParseResult.parsed none => none
    | JsonParseResult.parsed (some d) => if d = "" then none else some d
  else none

/-- How one generation attempt ended, from the consumer's point of view:
a successful response streamed to completion, a non-2xx response, a network
failure, or an explicit abort after some lines had arrived. -/
inductive FetchOutcome where
  | ok (lines : List String)
  | httpError
  | netError
  | aborted (linesSoFar : List String)
deriving Repr

/-- The visible completion text after `generateSummary` finishes (AIPanel.tsx
lines 431-477): the accumulated deltas on success; the generic retry message
on a non-2xx response or a thrown network error; on an explicit abort the
accumulated partial text is left as is and no error message is produced. -/
def generateSummaryCompletion (parse : String → JsonParseResult) :
    FetchOutcome → String
  | FetchOutcome.ok lines => consumeLines parse "" lines
  | FetchOutcome.httpError => retryMsg
  | FetchOutcome.netError => retryMsg
  | FetchOutcome.aborted ls => consumeLines parse "" ls

example : charBudget = 40000 := by decide
example : charBudgetCap = 275251 := by decide
example : normalizeWhitespace "  a\t\nb  " = "a b" := by decide
example : jsTrim " x " = "x" := by decide
example : stableHash "" = "0" := by decide
example : (selectWindow ["aaaa", "bbbb", "cccc"]).texts = ["aaaa", "cccc", "bbbb"] := by decide
example : (selectWindow [""]).selectedIdxs = [] := by decide

example :
    (extractPageContent
      ⟨true, true, true, ["abcdefghijklmnopqrstuvwxyzabcdefghijklmnopqrstuvwxyzabcdefgh"],
        "abcdefghijklmnopqrstuvwxyzabcdefghijklmnopqrstuvwxyzabcdefgh",
        some 0, some 0, some 0, some "b1"⟩).cacheKey.isSome = true := by decide

example :
    extractPageContent
      ⟨true, true, true, ["abcdefghijklmnopqrstuvwxy"], "abcdefghijklmnopqrstuvwxy",
        some 0, some 0, some 0, some "b1"⟩ =
    ⟨"abcdefghijklmnopqrstuvwxy", none, some "ai-summary:b1:0:",
      some "abcdefghijklmnopqrstuvwxy|abcdefghijklmnopqrstuvwxy"⟩ := by decide

example : similarity "a b c d" "a b c e" = mkRat 3 5 := by decide
example : similarity "hello world" "hello world" = 1 := by decide
example : mkRat 4 5 ≤ similarity "a b c d e" "a b c d x" ↔ False := by decide
example : mkRat 4 5 ≤ similarity "a b c d e" "a b c d e x" := by decide
example :
    consumeLines (fun s => if s = "bad" then JsonParseResult.malformed
        else JsonParseResult.parsed (some s)) ""
      ["data: x", "data: bad", "", "data: [DONE]", "data: y"] = "xy" := by decide

/-! ### General shape of extraction results -/

/-- Every extraction either returns no cache key, or went through the
successful window branch: the boundaries resolved, the key, group prefix,
signature source and content all come from the line 327 return. -/
theorem extract_success_shape (env : RenderEnv) :
    (extractPageContent env).cacheKey = none ∨
    ∃ sB eB,
      resolveBoundaries (collectParagraphs env.blocks)
          (lookupBlock env.blocks env.startBlockIdx)
          (lookupBlock env.blocks env.endBlockIdx) = some (sB, eB) ∧
      (extractPageContent env).cacheKey =
        some (cacheKeyOf env (collectParagraphs env.blocks) sB eB
          (sigSourceOf (collectParagraphs env.blocks) sB eB)) ∧
      (extractPageContent env).groupPrefixOpt = some (groupPrefixOf env) ∧
      (extractPageContent env).sigSource =
        some (sigSourceOf (collectParagraphs env.blocks) sB eB) ∧
      (extractPageContent env).content = contextOf (collectParagraphs env.blocks) sB eB ∧
      50 ≤ (extractPageContent env).content.length := by
  unfold extractPageContent
  split
  · exact Or.inl rfl
  split
  · exact Or.inl rfl
  split
  · exact Or.inl rfl
  split
  · exact Or.inl rfl
  split
  · exact Or.inl rfl
  next sB eB heq =>
    split
    next h50 => exact Or.inr ⟨sB, eB, heq, rfl, rfl, rfl, rfl, h50⟩
    next => exact Or.inl rfl

/-- When there are no qualifying paragraph blocks (or any earlier guard
fails), the whole result carries neither key nor group prefix. -/
theorem extract_no_blocks_no_group (env : RenderEnv)
    (h : collectParagraphs env.blocks = []) :
    (extractPageContent env).cacheKey = none ∧
    (extractPageContent env).groupPrefixOpt = none := by
  unfold extractPageContent
  split
  · exact ⟨rfl, rfl⟩
  split
  · exact ⟨rfl, rfl⟩
  split
  · exact ⟨rfl, rfl⟩
  split
  · exact ⟨rfl, rfl⟩
  next hne =>
    exact absurd (by simpa [List.isEmpty_iff] using h) hne

/-- Membership in the candidate-scan trace only yields reads. -/
theorem fuzzyScanOps_readonly (store : Store) (gp : String) :
    ∀ o ∈ fuzzyScanOps store gp, o = StoreOp.keys ∨ ∃ k, o = StoreOp.get k := by
  intro o ho
  rcases List.mem_cons.mp ho with h | h
  · exact Or.inl h
  · rcases List.mem_map.mp h with ⟨k, -, rfl⟩
    exact Or.inr ⟨k, rfl⟩

/-- All operations of a fuzzy lookup are reads. -/
theorem fuzzyLookup_ops_readonly (store : Store) (gp content : String) :
    ∀ op ∈ (fuzzyLookup store gp content).2,
      op = StoreOp.keys ∨ ∃ k, op = StoreOp.get k := by
  intro op hop
  unfold fuzzyLookup at hop
  split at hop
  · split at hop
    · split at hop
      · split at hop <;>
          · simp only [List.mem_append, List.mem_singleton] at hop
            rcases hop with h | h
            · exact fuzzyScanOps_readonly _ _ _ h
            · exact Or.inr ⟨_, h⟩
      · simp only [List.mem_append, List.mem_singleton] at hop
        rcases hop with h | h
        · exact fuzzyScanOps_readonly _ _ _ h
        · exact Or.inr ⟨_, h⟩
    · exact fuzzyScanOps_readonly _ _ _ hop
  · exact fuzzyScanOps_readonly _ _ _ hop

/-- A run of the page-change flow whose extraction computed no exact key
never writes to or removes from the store. -/
theorem pageFlow_no_key_no_write (store : Store) (res : ExtractResult)
    (g comp : String) (h : res.cacheKey = none) :
    (∀ op ∈ (pageFlow store res g comp).ops,
      op = StoreOp.keys ∨ ∃ k, op = StoreOp.get k) ∧
    (pageFlow store res g comp).finalStore = store := by
  unfold pageFlow
  rw [h]
  dsimp only
  constructor
  · intro op hop
    split at hop
    · split at hop
      · split at hop <;> exact fuzzyLookup_ops_readonly _ _ _ op hop
      · simp at hop
    · simp at hop
  · split
    · split
      · split <;> rfl
      · rfl
    · rfl

/-! ### C10 — the exact key extends the group prefix -/

/-- C10: whenever extraction returns a non-null cache key, the group prefix
is also non-null and the key begins with it, so the key is found by the
group-prefix scan of the fuzzy lookup. -/
theorem cache_key_extends_group (env : RenderEnv) (k : String)
    (h : (extractPageContent env).cacheKey = some k) :
    ∃ p rest, (extractPageContent env).groupPrefixOpt = some p ∧
      k = p ++ rest ∧ jsStartsWith k p = true := by
  rcases extract_success_shape env with h0 | ⟨sB, eB, -, hck, hgp, -, -, -⟩
  · rw [h0] at h; cases h
  · rw [hck] at h
    have hk : k = cacheKeyOf env (collectParagraphs env.blocks) sB eB
        (sigSourceOf (collectParagraphs env.blocks) sB eB) := (Option.some.inj h).symm
    refine ⟨groupPrefixOf env,
      centerPartStr (collectParagraphs env.blocks) sB eB ++
        (":" ++ stableHash (sigSourceOf (collectParagraphs env.blocks) sB eB)),
      hgp, ?_, ?_⟩
    · rw [hk]; simp [cacheKeyOf, String.append_assoc]
    · rw [hk]
      show ((groupPrefixOf env).data.isPrefixOf (cacheKeyOf env _ sB eB _).data) = true
      have : (cacheKeyOf env (collectParagraphs env.blocks) sB eB
          (sigSourceOf (collectParagraphs env.blocks) sB eB)).data =
          (groupPrefixOf env).data ++
            (centerPartStr (collectParagraphs env.blocks) sB eB ++
              (":" ++ stableHash (sigSourceOf (collectParagraphs env.blocks) sB eB))).data := by
        simp [cacheKeyOf, String.append_assoc]
      rw [this, List.isPrefixOf_iff_prefix]
      exact List.prefix_append _ _

/-- Environment witnessing C10: one long qualifying paragraph under the
viewport. -/
def envPfx : RenderEnv :=
  ⟨true, true, true,
    ["The library was silent except for the slow ticking of the clock on the wall."],
    "The library was silent except for the slow ticking of the clock on the wall.",
    some 0, some 0, some 2, some "bookA"⟩

set_option maxRecDepth 100000 in
theorem cache_key_extends_group_witness :
    ∃ p rest, (extractPageContent envPfx).groupPrefixOpt = some p ∧
      (extractPageContent envPfx).cacheKey.getD "" = p ++ rest ∧
      jsStartsWith ((extractPageContent envPfx).cacheKey.getD "") p = true :=
  cache_key_extends_group envPfx ((extractPageContent envPfx).cacheKey.getD "")
    (by decide)

/-! ### C6 — determinism of extraction -/

/-- C6: extraction is a pure function of the data the rendering engine
returns; two runs over the same engine snapshot (same location, ranges and
document tree) produce the same result, in particular the same
`cacheKeyOrNull`.  The embedding makes the snapshot explicit as `RenderEnv`;
the source reads the same values through `rendition` and the document and
contains no other input (no randomness, clock or mutable cross-run state
affecting the returned record). -/
theorem extraction_deterministic (env1 env2 : RenderEnv) (h : env1 = env2) :
    (extractPageContent env1).cacheKey = (extractPageContent env2).cacheKey ∧
    extractPageContent env1 = extractPageContent env2 := by
  rw [h]; exact ⟨rfl, rfl⟩

/-- Environment witnessing C6. -/
def envDet : RenderEnv :=
  ⟨true, true, true,
    ["Digital literacy includes the ability to evaluate sources critically."],
    "Digital literacy includes the ability to evaluate sources critically.",
    some 0, some 0, some 0, some "bookD"⟩

theorem extraction_deterministic_witness :
    (extractPageContent envDet).cacheKey = (extractPageContent envDet).cacheKey ∧
    extractPageContent envDet = extractPageContent envDet :=
  extraction_deterministic envDet envDet rfl

/-! ### C4 — degraded extraction and cache suppression -/

/-- Environment with a single qualifying paragraph of 25 characters: the
window branch is reached but the joined content stays below 50 characters,
so extraction degrades to the truncated body fallback. -/
def envShort : RenderEnv :=
  ⟨true, true, true, ["abcdefghijklmnopqrstuvwxy"], "abcdefghijklmnopqrstuvwxy",
    some 0, some 0, some 1, some "b2"⟩

/-- Counterexample to C4 as stated: on the short-window degraded path
(qualifying blocks exist, but the joined window content has fewer than 50
characters — line 330 of AIPanel.tsx) the cache key is null but the group
prefix is **not** null; the returned record keeps the computed group prefix
(which is what later enables the fuzzy lookup).  Such a document is simply
one whose only qualifying paragraph is 25 characters long. -/
theorem degraded_short_window_keeps_group_marker :
    (extractPageContent envShort).content.length < 50 ∧
    (extractPageContent envShort).cacheKey = none ∧
    (extractPageContent envShort).groupPrefixOpt = some "ai-summary:b2:1:" := by
  decide

/-- C4 amended: every degraded extraction returns a null cache key — and
with a null key the subsequent flow never writes to (or removes from) the
store; the group prefix is additionally null when there are no qualifying
blocks at all, but on the short-window fallback it stays non-null. -/
theorem degraded_extraction_suppresses_cache_key (env : RenderEnv)
    (store : Store) (g comp : String) :
    (collectParagraphs env.blocks = [] →
      (extractPageContent env).cacheKey = none ∧
      (extractPageContent env).groupPrefixOpt = none) ∧
    (∀ k, (extractPageContent env).cacheKey = some k →
      50 ≤ (extractPageContent env).content.length) ∧
    ((extractPageContent env).cacheKey = none →
      (∀ op ∈ (pageFlow store (extractPageContent env) g comp).ops,
        op = StoreOp.keys ∨ ∃ k0, op = StoreOp.get k0) ∧
      (pageFlow store (extractPageContent env) g comp).finalStore = store) := by
  refine ⟨extract_no_blocks_no_group env, ?_, ?_⟩
  · intro k hk
    rcases extract_success_shape env with h0 | ⟨sB, eB, -, -, -, -, -, h50⟩
    · rw [h0] at hk; cases hk
    · exact h50
  · intro hnone
    exact pageFlow_no_key_no_write store _ g comp hnone

theorem degraded_extraction_suppresses_cache_key_witness :
    (∀ op ∈ (pageFlow [] (extractPageContent envShort) "G" "C").ops,
      op = StoreOp.keys ∨ ∃ k0, op = StoreOp.get k0) ∧
    (pageFlow [] (extractPageContent envShort) "G" "C").finalStore = [] :=
  (degraded_extraction_suppresses_cache_key envShort [] "G" "C").2.2 (by decide)

/-! ### C5 — the cache-key format -/

/-- The rolling hash as the specification words it: multiply-and-add over
the character codes with base 131, every intermediate value truncated to an
unsigned 32-bit integer. -/
def specRollingHash (s : String) : Nat :=
  s.data.foldl (fun h c => (h * 131 + c.toNat) % 4294967296) 0

/-- The cache key as the specification words it: the string
`ai-summary:bookId:spineId:centerPart:hash` where `centerPart` is
`min(startIndex,endIndex)-max(startIndex,endIndex)` and `hash` is the
rolling hash of `firstParagraphText[:120] + "|" + lastParagraphText[:120]`
(post-normalisation texts are passed in), rendered in hexadecimal. -/
def specCacheKey (bookId spineId : String) (i j : Int) (firstPara lastPara : String) :
    String :=
  "ai-summary:" ++ bookId ++ ":" ++ spineId ++ ":" ++
    Int.repr (min i j) ++ "-" ++ Int.repr (max i j) ++ ":" ++
    (Nat.toDigits 16 (specRollingHash (jsSlice firstPara 120 ++ "|" ++ jsSlice lastPara 120))).asString

/-- C5: every exact cache key the extraction emits has exactly the claimed
format, over the boundary blocks' positions in the full collected paragraph
sequence and the normalised boundary texts of the in-between set. -/
theorem cache_key_matches_spec_format (env : RenderEnv) (k : String)
    (h : (extractPageContent env).cacheKey = some k) :
    ∃ sB eB,
      resolveBoundaries (collectParagraphs env.blocks)
          (lookupBlock env.blocks env.startBlockIdx)
          (lookupBlock env.blocks env.endBlockIdx) = some (sB, eB) ∧
      k = specCacheKey (bookIdStr env) (spinePartStr env)
            (findBlockIdx (collectParagraphs env.blocks) sB)
            (findBlockIdx (collectParagraphs env.blocks) eB)
            (normalizeWhitespace
              ((buildInBetween (collectParagraphs env.blocks) sB eB).headD (0, "")).2)
            (normalizeWhitespace
              ((buildInBetween (collectParagraphs env.blocks) sB eB).getLastD (0, "")).2) := by
  rcases extract_success_shape env with h0 | ⟨sB, eB, hres, hck, -, -, -, -⟩
  · rw [h0] at h; cases h
  · refine ⟨sB, eB, hres, ?_⟩
    rw [hck] at h
    have hk := (Option.some.inj h).symm
    rw [hk]
    simp [cacheKeyOf, groupPrefixOf, centerPartStr, sigSourceOf, stableHash, toHex,
      specCacheKey, specRollingHash, String.append_assoc]

/-- Environment witnessing C5: two qualifying paragraphs spanned by the
viewport. -/
def envKey : RenderEnv :=
  ⟨true, true, true,
    ["Rain fell steadily on the old tin roof throughout the night.",
      "By morning the river had risen well past the lower footbridge."],
    "Rain fell steadily on the old tin roof throughout the night. By morning the river had risen well past the lower footbridge.",
    some 0, some 1, some 3, some "b9"⟩

set_option maxRecDepth 100000 in
theorem cache_key_matches_spec_format_witness :
    ∃ sB eB,
      resolveBoundaries (collectParagraphs envKey.blocks)
          (lookupBlock envKey.blocks envKey.startBlockIdx)
          (lookupBlock envKey.blocks envKey.endBlockIdx) = some (sB, eB) ∧
      (extractPageContent envKey).cacheKey.getD "" =
        specCacheKey (bookIdStr envKey) (spinePartStr envKey)
          (findBlockIdx (collectParagraphs envKey.blocks) sB)
          (findBlockIdx (collectParagraphs envKey.blocks) eB)
          (normalizeWhitespace
            ((buildInBetween (collectParagraphs envKey.blocks) sB eB).headD (0, "")).2)
          (normalizeWhitespace
            ((buildInBetween (collectParagraphs envKey.blocks) sB eB).getLastD (0, "")).2) :=
  cache_key_matches_spec_format envKey ((extractPageContent envKey).cacheKey.getD "")
    (by decide)

/-! ### C1 — what the deferred cache write actually commits -/

/-- Environment with one qualifying 60-character paragraph under the
viewport, so extraction succeeds and computes an exact cache key. -/
def envGen : RenderEnv :=
  ⟨true, true, true,
    ["abcdefghijklmnopqrstuvwxyzabcdefghijklmnopqrstuvwxyzabcdefgh"],
    "abcdefghijklmnopqrstuvwxyzabcdefghijklmnopqrstuvwxyzabcdefgh",
    some 0, some 0, some 0, some "b1"⟩

/-- C1 fails on the code: the deferred `setTimeout` write (AIPanel.tsx lines
568-575) reads the React state variable `completion` captured by the
page-change effect closure when the effect ran — i.e. the text visible
*before* this generation — not the text the just-completed generation
accumulated.  Concretely: with a previous visible completion `"OLD"`, a
generation that successfully streams `"NEW"` under a freshly computed exact
key leaves `"OLD"` in the store under that key; and on a fresh panel (empty
captured completion) nothing is written at all. -/
theorem deferred_cache_write_commits_stale_completion :
    (extractPageContent envGen).cacheKey.isSome = true ∧
    (pageFlow [] (extractPageContent envGen) "NEW" "OLD").outcome =
      FlowOutcome.generated "NEW" ∧
    (pageFlow [] (extractPageContent envGen) "NEW" "OLD").finalStore.map Prod.snd =
      ["OLD"] ∧
    (pageFlow [] (extractPageContent envGen) "NEW" "").outcome =
      FlowOutcome.generated "NEW" ∧
    (pageFlow [] (extractPageContent envGen) "NEW" "").finalStore = [] := by
  decide

/-! ### Selection-loop invariants (C2, C3) -/

/-- A push either fails (state unchanged) or succeeds under the recorded
conditions, appending exactly one text and one index. -/
theorem pushIdx_eq_or (ib : List String) (b mp : Nat) (st : SelState) (idx : Nat) :
    pushIdx ib b mp st idx = st ∨
    (normalizeWhitespace (ib.getD idx "") ≠ "" ∧
      idx ∉ st.selectedIdxs ∧
      ¬(2 ≤ st.texts.length ∧
        b < st.total + (normalizeWhitespace (ib.getD idx "")).length +
          (if st.texts ≠ [] then 2 else 0)) ∧
      pushIdx ib b mp st idx =
        ⟨st.total + (normalizeWhitespace (ib.getD idx "")).length +
            (if st.texts ≠ [] then 2 else 0),
          st.texts ++ [normalizeWhitespace (ib.getD idx "")],
          st.selectedIdxs ++ [idx]⟩) := by
  unfold pushIdx
  by_cases hle : ib.length ≤ idx
  · rw [if_pos hle]; exact Or.inl rfl
  rw [if_neg hle]
  by_cases hmem : idx ∈ st.selectedIdxs
  · rw [if_pos hmem]; exact Or.inl rfl
  rw [if_neg hmem]
  by_cases ht : normalizeWhitespace (ib.getD idx "") = ""
  · rw [if_pos ht]; exact Or.inl rfl
  rw [if_neg ht]
  by_cases hmp : mp ≤ st.texts.length
  · rw [if_pos hmp]; exact Or.inl rfl
  rw [if_neg hmp]
  by_cases hb : 2 ≤ st.texts.length ∧
      b < st.total + (normalizeWhitespace (ib.getD idx "")).length +
        (if st.texts ≠ [] then 2 else 0)
  · rw [if_pos hb]; exact Or.inl rfl
  · rw [if_neg hb]; exact Or.inr ⟨ht, hmem, hb, rfl⟩

/-- Joining after appending one element. -/
theorem joinWith_append_singleton (sep : String) (ts : List String) (t : String)
    (h : ts ≠ []) :
    joinWith sep (ts ++ [t]) = joinWith sep ts ++ sep ++ t := by
  induction ts with
  | nil => exact absurd rfl h
  | cons a as ih =>
    cases as with
    | nil => simp [joinWith]
    | cons b bs =>
      show a ++ sep ++ joinWith sep ((b :: bs) ++ [t]) =
        a ++ sep ++ joinWith sep (b :: bs) ++ sep ++ t
      rw [ih (by simp)]
      simp [String.append_assoc]

/-- The invariant carried through the expansion loop: at least the two
forced texts are present, the running total is bounded by the larger of the
budget and the forced-phase total `M`, the running total equals the length
of the joined content, both boundary indices stay selected, and no index is
selected twice. -/
def SelInv (b M i j : Nat) (st : SelState) : Prop :=
  2 ≤ st.texts.length ∧ st.total ≤ max b M ∧
  st.total = (joinWith "\n\n" st.texts).length ∧
  i ∈ st.selectedIdxs ∧ j ∈ st.selectedIdxs ∧ st.selectedIdxs.Nodup

/-- Pushes preserve the invariant: a successful push past the forced phase
is budget-checked, so the total stays under the budget. -/
theorem pushIdx_inv (ib : List String) (b mp M i j : Nat) (st : SelState) (idx : Nat)
    (h : SelInv b M i j st) : SelInv b M i j (pushIdx ib b mp st idx) := by
  obtain ⟨h2, hT, hJ, hi, hj, hnd⟩ := h
  rcases pushIdx_eq_or ib b mp st idx with he | ⟨htne, hnotmem, hbudget, he⟩
  · rw [he]; exact ⟨h2, hT, hJ, hi, hj, hnd⟩
  · rw [he]
    have hts : st.texts ≠ [] := by
      intro hnil
      rw [hnil] at h2
      simp at h2
    have hite : (if st.texts ≠ [] then 2 else 0) = 2 := if_pos hts
    unfold SelInv
    dsimp only
    refine ⟨?_, ?_, ?_, List.mem_append_left _ hi, List.mem_append_left _ hj, ?_⟩
    · simp only [List.length_append, List.length_singleton]
      omega
    · have hnlt : ¬ (b < st.total + (normalizeWhitespace (ib.getD idx "")).length +
          (if st.texts ≠ [] then 2 else 0)) := fun hb => hbudget ⟨h2, hb⟩
      exact le_trans (Nat.le_of_not_lt hnlt) (le_max_left b M)
    · rw [joinWith_append_singleton _ _ _ hts, String.length_append, String.length_append]
      have h2' : ("\n\n" : String).length = 2 := rfl
      rw [h2', ← hJ, hite]
      omega
    · rw [List.nodup_append]
      refine ⟨hnd, List.nodup_singleton _, ?_⟩
      intro x hx hx1
      simp only [List.mem_singleton] at hx1
      exact hnotmem (hx1 ▸ hx)

/-- Any property preserved by pushes is preserved by the expansion loop. -/
theorem expand_preserves (ib : List String) (b mp : Nat) (P : SelState → Prop)
    (hpush : ∀ st idx, P st → P (pushIdx ib b mp st idx)) :
    ∀ fuel st step, P st → P (expand ib b mp fuel st step) := by
  intro fuel
  induction fuel with
  | zero => intro st step h; exact h
  | succ n ih =>
    intro st step h
    unfold expand
    split
    · split
      · split
        · apply ih
          split
          · exact hpush _ _ h
          · exact hpush _ _ (hpush _ _ h)
        · exact h
      · exact h
    · exact h

/-- The loop does nothing once `step` passes the end of the sequence. -/
theorem expand_stop (ib : List String) (b mp : Nat) :
    ∀ fuel st step, ib.length ≤ step → expand ib b mp fuel st step = st := by
  intro fuel st step h
  cases fuel with
  | zero => rfl
  | succ n =>
    unfold expand
    rw [if_neg (Nat.not_lt.mpr h)]

/-- The forced push of the first in-between paragraph on the empty state. -/
theorem pushIdx_first (ib : List String) (h1 : ib ≠ [])
    (hf : normalizeWhitespace (ib.getD 0 "") ≠ "") :
    pushIdx ib charBudget maxParas ⟨0, [], []⟩ 0 =
      ⟨(normalizeWhitespace (ib.getD 0 "")).length,
        [normalizeWhitespace (ib.getD 0 "")], [0]⟩ := by
  have hlen : ¬ (ib.length ≤ 0) := by
    cases ib with
    | nil => exact absurd rfl h1
    | cons a as => simp
  unfold pushIdx
  rw [if_neg hlen, if_neg (by simp), if_neg hf, if_neg (by simp [maxParas]),
    if_neg (by simp)]
  simp

/-- The forced push of the last in-between paragraph (when distinct from the
first) on the one-text state. -/
theorem pushIdx_last (ib : List String) (h2 : 1 < ib.length)
    (hl : normalizeWhitespace (ib.getD (ib.length - 1) "") ≠ "") (tf : String) :
    pushIdx ib charBudget maxParas ⟨tf.length, [tf], [0]⟩ (ib.length - 1) =
      ⟨tf.length + (normalizeWhitespace (ib.getD (ib.length - 1) "")).length + 2,
        [tf, normalizeWhitespace (ib.getD (ib.length - 1) "")],
        [0, ib.length - 1]⟩ := by
  unfold pushIdx
  rw [if_neg (by omega), if_neg (by simp; omega), if_neg hl,
    if_neg (by simp [maxParas]), if_neg (by simp)]
  simp

/-- On a single-element sequence with a non-blank text, the selection is
exactly that text. -/
theorem selectWindow_singleton (ib : List String) (hlen : ib.length = 1)
    (hf : normalizeWhitespace (ib.getD 0 "") ≠ "") :
    selectWindow ib =
      ⟨(normalizeWhitespace (ib.getD 0 "")).length,
        [normalizeWhitespace (ib.getD 0 "")], [0]⟩ := by
  have h1 : ib ≠ [] := by
    intro h
    rw [h] at hlen
    simp at hlen
  show expand ib charBudget maxParas ib.length
      (if 1 < ib.length then
        pushIdx ib charBudget maxParas
          (pushIdx ib charBudget maxParas ⟨0, [], []⟩ 0) (ib.length - 1)
      else pushIdx ib charBudget maxParas ⟨0, [], []⟩ 0) 1 = _
  rw [if_neg (by omega), pushIdx_first ib h1 hf]
  exact expand_stop ib charBudget maxParas ib.length _ 1 (by omega)

/-- Combined facts about the final selection, under non-blank boundary
texts: both boundary indices are selected (each exactly once), the running
total equals the joined content length, and the total is bounded by the
larger of the character budget and the forced boundary contribution. -/
theorem selectWindow_inv (ib : List String) (h1 : ib ≠ [])
    (hf : normalizeWhitespace (ib.getD 0 "") ≠ "")
    (hl : normalizeWhitespace (ib.getD (ib.length - 1) "") ≠ "") :
    (0 ∈ (selectWindow ib).selectedIdxs ∧
      (ib.length - 1) ∈ (selectWindow ib).selectedIdxs ∧
      (selectWindow ib).selectedIdxs.Nodup) ∧
    (selectWindow ib).total ≤
      max charBudget
        ((normalizeWhitespace (ib.getD 0 "")).length +
          (if 1 < ib.length then
            (normalizeWhitespace (ib.getD (ib.length - 1) "")).length + 2 else 0)) ∧
    (selectWindow ib).total = (joinWith "\n\n" (selectWindow ib).texts).length := by
  by_cases h2 : 1 < ib.length
  · have hM : (normalizeWhitespace (ib.getD 0 "")).length +
        (if 1 < ib.length then
          (normalizeWhitespace (ib.getD (ib.length - 1) "")).length + 2 else 0) =
        (normalizeWhitespace (ib.getD 0 "")).length +
          (normalizeWhitespace (ib.getD (ib.length - 1) "")).length + 2 := by
      rw [if_pos h2]
      omega
    have hsw : selectWindow ib =
        expand ib charBudget maxParas ib.length
          ⟨(normalizeWhitespace (ib.getD 0 "")).length +
              (normalizeWhitespace (ib.getD (ib.length - 1) "")).length + 2,
            [normalizeWhitespace (ib.getD 0 ""),
              normalizeWhitespace (ib.getD (ib.length - 1) "")],
            [0, ib.length - 1]⟩ 1 := by
      show expand ib charBudget maxParas ib.length
          (if 1 < ib.length then
            pushIdx ib charBudget maxParas
              (pushIdx ib charBudget maxParas ⟨0, [], []⟩ 0) (ib.length - 1)
          else pushIdx ib charBudget maxParas ⟨0, [], []⟩ 0) 1 = _
      rw [if_pos h2, pushIdx_first ib h1 hf, pushIdx_last ib h2 hl]
    have hbase : SelInv charBudget
        ((normalizeWhitespace (ib.getD 0 "")).length +
          (if 1 < ib.length then
            (normalizeWhitespace (ib.getD (ib.length - 1) "")).length + 2 else 0))
        0 (ib.length - 1)
        ⟨(normalizeWhitespace (ib.getD 0 "")).length +
            (normalizeWhitespace (ib.getD (ib.length - 1) "")).length + 2,
          [normalizeWhitespace (ib.getD 0 ""),
            normalizeWhitespace (ib.getD (ib.length - 1) "")],
          [0, ib.length - 1]⟩ := by
      refine ⟨by simp, ?_, ?_, by simp, by simp, ?_⟩
      · rw [hM]
        exact le_max_right _ _
      · show _ = (joinWith "\n\n" [_, _]).length
        simp only [joinWith]
        rw [String.length_append, String.length_append]
        have : ("\n\n" : String).length = 2 := rfl
        rw [this]
        omega
      · simp
        omega
    have hres := expand_preserves ib charBudget maxParas
      (SelInv charBudget
        ((normalizeWhitespace (ib.getD 0 "")).length +
          (if 1 < ib.length then
            (normalizeWhitespace (ib.getD (ib.length - 1) "")).length + 2 else 0))
        0 (ib.length - 1))
      (fun st idx h => pushIdx_inv ib charBudget maxParas _ 0 (ib.length - 1) st idx h)
      ib.length _ 1 hbase
    rw [← hsw] at hres
    obtain ⟨-, hT, hJ, hi, hj, hnd⟩ := hres
    exact ⟨⟨hi, hj, hnd⟩, hT, hJ⟩
  · have hlen : ib.length = 1 := by
      have : ib.length ≠ 0 := by simpa [List.length_eq_zero] using h1
      omega
    rw [selectWindow_singleton ib hlen hf]
    refine ⟨⟨by simp, by rw [hlen]; simp, by simp⟩, ?_, by simp [joinWith]⟩
    rw [if_neg h2]
    exact le_trans (Nat.le_add_right _ 0) (le_max_right _ _)

/-! ### C2 — the window respects the character budget -/

/-- C2: over any in-between sequence of qualifying blocks (normalised length
at least 20, the collector's threshold), the joined window content — whose
length is the sum of the selected normalised texts plus a 2-character joiner
per paragraph after the first — never exceeds the character budget
`min charBudgetCap 40000`, except for the unconditional contribution of the
two forced boundary paragraphs. -/
theorem extraction_window_respects_char_budget (ib : List String) (h1 : ib ≠ [])
    (hq : ∀ t ∈ ib, 20 ≤ (normalizeWhitespace t).length) :
    (joinWith "\n\n" (selectWindow ib).texts).length ≤
      max charBudget
        ((normalizeWhitespace (ib.getD 0 "")).length +
          (if 1 < ib.length then
            (normalizeWhitespace (ib.getD (ib.length - 1) "")).length + 2 else 0)) := by
  have hne : ib.length ≠ 0 := by simpa [List.length_eq_zero] using h1
  have h0lt : 0 < ib.length := Nat.pos_of_ne_zero hne
  have hmem0 : ib.getD 0 "" ∈ ib := by
    rw [List.getD_eq_getElem ib "" h0lt]
    exact List.getElem_mem h0lt
  have hllt : ib.length - 1 < ib.length := by omega
  have hmeml : ib.getD (ib.length - 1) "" ∈ ib := by
    rw [List.getD_eq_getElem ib "" hllt]
    exact List.getElem_mem hllt
  have hf : normalizeWhitespace (ib.getD 0 "") ≠ "" := by
    intro he
    have := hq _ hmem0
    rw [he] at this
    simp at this
  have hl : normalizeWhitespace (ib.getD (ib.length - 1) "") ≠ "" := by
    intro he
    have := hq _ hmeml
    rw [he] at this
    simp at this
  obtain ⟨-, hT, hJ⟩ := selectWindow_inv ib h1 hf hl
  rw [← hJ]
  exact hT

/-- In-between sequence used by the witnesses: two qualifying paragraphs. -/
def ibW : List String :=
  ["The quick brown fox jumps over the lazy dog near the river bank.",
    "Pack my box with five dozen liquor jugs before the sun goes down."]

theorem extraction_window_respects_char_budget_witness :
    (∀ t ∈ ibW, 20 ≤ (normalizeWhitespace t).length) ∧
    (joinWith "\n\n" (selectWindow ibW).texts).length ≤
      max charBudget
        ((normalizeWhitespace (ibW.getD 0 "")).length +
          (if 1 < ibW.length then
            (normalizeWhitespace (ibW.getD (ibW.length - 1) "")).length + 2 else 0)) :=
  ⟨by decide, extraction_window_respects_char_budget ibW (by decide) (by decide)⟩

/-! ### C3 — the boundary paragraphs in the final selection -/

/-- Counterexample to C3 as stated: an in-between sequence of length 1 whose
single element normalises to the empty string (reachable: when no collected
paragraph intersects the viewport range, line 264 of AIPanel.tsx seeds the
in-between set with the raw start block, which is not subject to the
20-character collector filter and may be blank).  `pushIdx` (line 278)
rejects blank texts, so the paragraph at index 0 is *not* in the final
selection. -/
theorem boundary_inclusion_fails_on_blank_text :
    1 ≤ ([""] : List String).length ∧
    0 ∉ (selectWindow [""]).selectedIdxs ∧
    (selectWindow [""]).texts = [] := by
  decide

/-- C3 amended: for every non-empty in-between sequence whose boundary texts
do not normalise to the empty string (always true for sequences drawn from
the 20-character collector filter), the paragraphs at index 0 and index n-1
are in the final selection, and no index is selected twice (so a shared
boundary is counted once). -/
theorem boundary_paragraphs_selected_when_nonblank (ib : List String) (h1 : ib ≠ [])
    (hf : normalizeWhitespace (ib.getD 0 "") ≠ "")
    (hl : normalizeWhitespace (ib.getD (ib.length - 1) "") ≠ "") :
    0 ∈ (selectWindow ib).selectedIdxs ∧
    (ib.length - 1) ∈ (selectWindow ib).selectedIdxs ∧
    (selectWindow ib).selectedIdxs.Nodup :=
  (selectWindow_inv ib h1 hf hl).1

theorem boundary_paragraphs_selected_when_nonblank_witness :
    0 ∈ (selectWindow ibW).selectedIdxs ∧
    (ibW.length - 1) ∈ (selectWindow ibW).selectedIdxs ∧
    (selectWindow ibW).selectedIdxs.Nodup :=
  boundary_paragraphs_selected_when_nonblank ibW (by decide) (by decide) (by decide)

/-! ### C8 — missing configuration refuses generation -/

/-- C8: when any required configuration item (credential, endpoint base URL
or model identifier) is missing or blank, the configuration check reports
unconfigured, `generateSummary` refuses (no request object is built, hence no
network call), the panel shows the configuration-incomplete notice, and the
missing list contains exactly the blank items, in the fixed order. -/
theorem missing_config_refuses_generation (c : AiConfig) (content : String)
    (h : jsTrim c.apiKey = "" ∨ jsTrim c.baseUrl = "" ∨ jsTrim c.model = "") :
    (checkAiConfig c).configured = false ∧
    generateSummaryRequest content (checkAiConfig c) c = none ∧
    panelMissingNotice (checkAiConfig c) =
      some ("缺少配置项：" ++ joinWith ", " (checkAiConfig c).missing) ∧
    (∀ l, l ∈ (checkAiConfig c).missing ↔
      ((l = "API Key" ∧ jsTrim c.apiKey = "") ∨
       (l = "Base URL" ∧ jsTrim c.baseUrl = "") ∨
       (l = "Model" ∧ jsTrim c.model = ""))) := by
  have hconf : (checkAiConfig c).configured = false := by
    unfold checkAiConfig
    rcases h with h | h | h <;> simp [h, List.isEmpty_iff]
  refine ⟨hconf, ?_, ?_, ?_⟩
  · unfold generateSummaryRequest
    rw [if_pos (Or.inr hconf)]
  · unfold panelMissingNotice
    rw [if_neg (by rw [hconf]; exact Bool.false_ne_true)]
  · intro l
    unfold checkAiConfig
    by_cases h1 : jsTrim c.apiKey = "" <;> by_cases h2 : jsTrim c.baseUrl = "" <;>
      by_cases h3 : jsTrim c.model = "" <;>
      simp [h1, h2, h3]

theorem missing_config_refuses_generation_witness :
    (jsTrim (AiConfig.mk "" "https://api.example.com/v1" "m1").apiKey = "" ∨
      jsTrim (AiConfig.mk "" "https://api.example.com/v1" "m1").baseUrl = "" ∨
      jsTrim (AiConfig.mk "" "https://api.example.com/v1" "m1").model = "") ∧
    ((checkAiConfig (AiConfig.mk "" "https://api.example.com/v1" "m1")).configured = false ∧
     generateSummaryRequest "some page text"
       (checkAiConfig (AiConfig.mk "" "https://api.example.com/v1" "m1"))
       (AiConfig.mk "" "https://api.example.com/v1" "m1") = none ∧
     panelMissingNotice (checkAiConfig (AiConfig.mk "" "https://api.example.com/v1" "m1")) =
       some ("缺少配置项：" ++ joinWith ", "
         (checkAiConfig (AiConfig.mk "" "https://api.example.com/v1" "m1")).missing) ∧
     (∀ l, l ∈ (checkAiConfig (AiConfig.mk "" "https://api.example.com/v1" "m1")).missing ↔
       ((l = "API Key" ∧ jsTrim (AiConfig.mk "" "https://api.example.com/v1" "m1").apiKey = "") ∨
        (l = "Base URL" ∧ jsTrim (AiConfig.mk "" "https://api.example.com/v1" "m1").baseUrl = "") ∨
        (l = "Model" ∧ jsTrim (AiConfig.mk "" "https://api.example.com/v1" "m1").model = "")))) :=
  ⟨Or.inl (by decide),
    missing_config_refuses_generation (AiConfig.mk "" "https://api.example.com/v1" "m1")
      "some page text" (Or.inl (by decide))⟩

/-! ### C9 — stream consumption and error handling -/

/-- Appending one processed line appends exactly its delta. -/
theorem processLine_eq (parse : String → JsonParseResult) (acc line : String) :
    processLine parse acc line = acc ++ (lineDelta parse line).getD "" := by
  unfold processLine lineDelta
  by_cases h1 : jsTrim line = "" ∨ jsTrim line = "data: [DONE]"
  · rw [if_pos h1, if_pos h1]
    simp
  rw [if_neg h1, if_neg h1]
  by_cases h2 : jsStartsWith (jsTrim line) "data: " = true
  · rw [if_pos h2, if_pos h2]
    cases hp : parse (jsDrop (jsTrim line) 6) with
    | malformed => simp
    | parsed d =>
      cases d with
      | none => simp
      | some s =>
        by_cases hs : s = ""
        · simp [hs]
        · simp [hs]
  · rw [if_neg h2, if_neg h2]
    simp

/-- Concatenation of a list of strings in order. -/
def concatAll : List String → String
  | [] => ""
  | s :: ss => s ++ concatAll ss

/-- The accumulated output is the concatenation of the deltas of the
well-formed lines, in arrival order. -/
theorem consumeLines_eq (parse : String → JsonParseResult) :
    ∀ lines acc, consumeLines parse acc lines =
      acc ++ concatAll (lines.filterMap (lineDelta parse)) := by
  intro lines
  induction lines with
  | nil =>
    intro acc
    show acc = acc ++ concatAll []
    simp [concatAll]
  | cons l ls ih =>
    intro acc
    show consumeLines parse (processLine parse acc l) ls = _
    rw [ih, processLine_eq]
    cases hd : lineDelta parse l with
    | none =>
      simp only [List.filterMap_cons, hd, Option.getD_none]
      simp
    | some d =>
      simp only [List.filterMap_cons, hd, Option.getD_some, concatAll]
      rw [String.append_assoc]

/-- C9: a single malformed `data:` line is skipped and consumption continues
with the subsequent lines unchanged; well-formed deltas are appended
strictly in arrival order (the result is their in-order concatenation); a
non-2xx response or a network failure replaces the visible output with the
generic retry message; an explicit abort leaves the partial accumulated
output and produces no error message. -/
theorem stream_consumption_error_handling (parse : String → JsonParseResult) :
    (∀ pre post bad,
      jsStartsWith (jsTrim bad) "data: " = true →
      parse (jsDrop (jsTrim bad) 6) = JsonParseResult.malformed →
      consumeLines parse "" (pre ++ bad :: post) = consumeLines parse "" (pre ++ post)) ∧
    (∀ lines, consumeLines parse "" lines =
      concatAll (lines.filterMap (lineDelta parse))) ∧
    generateSummaryCompletion parse FetchOutcome.httpError = retryMsg ∧
    generateSummaryCompletion parse FetchOutcome.netError = retryMsg ∧
    (∀ ls, generateSummaryCompletion parse (FetchOutcome.aborted ls) =
      consumeLines parse "" ls) := by
  have hbadNone : ∀ bad, jsStartsWith (jsTrim bad) "data: " = true →
      parse (jsDrop (jsTrim bad) 6) = JsonParseResult.malformed →
      lineDelta parse bad = none := by
    intro bad hsw hp
    unfold lineDelta
    by_cases h1 : jsTrim bad = "" ∨ jsTrim bad = "data: [DONE]"
    · rw [if_pos h1]
    · rw [if_neg h1, if_pos hsw, hp]
  refine ⟨?_, ?_, rfl, rfl, fun ls => rfl⟩
  · intro pre post bad hsw hp
    rw [consumeLines_eq, consumeLines_eq]
    rw [List.filterMap_append, List.filterMap_append, List.filterMap_cons,
      hbadNone bad hsw hp]
  · intro lines
    rw [consumeLines_eq]
    show "" ++ _ = _
    simp

/-- Parse oracle used by the C9 witness: the payload `"bad"` is malformed,
anything else parses with itself as the delta. -/
def parseW : String → JsonParseResult :=
  fun s => if s = "bad" then JsonParseResult.malformed else JsonParseResult.parsed (some s)

theorem stream_consumption_error_handling_witness :
    consumeLines parseW "" (["data: x"] ++ "data: bad" :: ["data: y"]) =
      consumeLines parseW "" (["data: x"] ++ ["data: y"]) :=
  (stream_consumption_error_handling parseW).1 ["data: x"] ["data: y"] "data: bad"
    (by decide) (by decide)

/-! ### C7 — the fuzzy cache lookup -/

/-- The best (maximum) similarity score over the group candidates, starting
from the empty best. -/
def bestScoreOf (store : Store) (gp content : String) : ℚ :=
  (fuzzyScan store content (groupKeysOf store gp) ⟨none, 0⟩).bestScore

/-- One scan step never lowers the best score. -/
theorem scanStep_mono (store : Store) (content : String) (acc : FuzzyBest)
    (k : String) : acc.bestScore ≤ (scanStep store content acc k).bestScore := by
  unfold scanStep
  cases hv : storeGet store k with
  | none => exact le_refl _
  | some v =>
    dsimp only
    by_cases hv0 : v = ""
    · rw [if_pos hv0]
    · rw [if_neg hv0]
      by_cases hlt : acc.bestScore < similarity (jsSlice content 400) (jsSlice v 400)
      · rw [if_pos hlt]
        exact le_of_lt hlt
      · rw [if_neg hlt]

/-- A valid candidate's score is reflected into the step result. -/
theorem scanStep_ub (store : Store) (content : String) (acc : FuzzyBest)
    (k v : String) (hv : storeGet store k = some v) (hne : v ≠ "") :
    similarity (jsSlice content 400) (jsSlice v 400) ≤
      (scanStep store content acc k).bestScore := by
  unfold scanStep
  rw [hv]
  dsimp only
  rw [if_neg hne]
  by_cases hlt : acc.bestScore < similarity (jsSlice content 400) (jsSlice v 400)
  · rw [if_pos hlt]
  · rw [if_neg hlt]
    exact le_of_not_lt hlt

/-- The scan never lowers the best score. -/
theorem fuzzyScan_mono (store : Store) (content : String) :
    ∀ ks acc, acc.bestScore ≤ (fuzzyScan store content ks acc).bestScore := by
  intro ks
  induction ks with
  | nil => intro acc; exact le_refl _
  | cons k ks ih =>
    intro acc
    exact le_trans (scanStep_mono store content acc k) (ih _)

/-- Every valid candidate's score is bounded by the final best score. -/
theorem fuzzyScan_ub (store : Store) (content : String) :
    ∀ ks acc k v, k ∈ ks → storeGet store k = some v → v ≠ "" →
      similarity (jsSlice content 400) (jsSlice v 400) ≤
        (fuzzyScan store content ks acc).bestScore := by
  intro ks
  induction ks with
  | nil => intro acc k v hk; cases hk
  | cons k0 ks ih =>
    intro acc k v hk hv hne
    rcases List.mem_cons.mp hk with rfl | hk
    · exact le_trans (scanStep_ub store content acc k v hv hne)
        (fuzzyScan_mono store content ks _)
    · exact ih _ k v hk hv hne

/-- Provenance invariant of the scan: a `none` best key means score 0, and a
`some` best key is a valid group candidate whose score is the current best. -/
def ScanInv (store : Store) (content : String) (ks0 : List String)
    (acc : FuzzyBest) : Prop :=
  (acc.bestKey = none → acc.bestScore = 0) ∧
  (∀ bk, acc.bestKey = some bk → bk ∈ ks0 ∧
    ∃ v, storeGet store bk = some v ∧ v ≠ "" ∧
      acc.bestScore = similarity (jsSlice content 400) (jsSlice v 400))

/-- One step preserves the provenance invariant. -/
theorem scanStep_inv (store : Store) (content : String) (ks0 : List String)
    (acc : FuzzyBest) (k : String) (hk : k ∈ ks0)
    (h : ScanInv store content ks0 acc) :
    ScanInv store content ks0 (scanStep store content acc k) := by
  unfold scanStep
  cases hv : storeGet store k with
  | none => exact h
  | some v =>
    dsimp only
    by_cases hv0 : v = ""
    · rw [if_pos hv0]; exact h
    · rw [if_neg hv0]
      by_cases hlt : acc.bestScore < similarity (jsSlice content 400) (jsSlice v 400)
      · rw [if_pos hlt]
        refine ⟨(fun habs => nomatch habs), (fun bk hbk => ?_)⟩
        have hbkk : k = bk := Option.some.inj hbk
        subst hbkk
        exact ⟨hk, v, hv, hv0, rfl⟩
      · rw [if_neg hlt]; exact h

/-- The scan preserves the provenance invariant. -/
theorem fuzzyScan_inv (store : Store) (content : String) (ks0 : List String) :
    ∀ ks acc, (∀ x ∈ ks, x ∈ ks0) → ScanInv store content ks0 acc →
      ScanInv store content ks0 (fuzzyScan store content ks acc) := by
  intro ks
  induction ks with
  | nil => intro acc _ h; exact h
  | cons k ks ih =>
    intro acc hsub h
    exact ih _ (fun x hx => hsub x (List.mem_cons_of_mem k hx))
      (scanStep_inv store content ks0 acc k (hsub k (List.mem_cons_self k ks)) h)

/-- The fuzzy lookup returns a hit exactly when the maximum candidate score
reaches 0.8 = 4/5, and the hit is a valid group candidate at or above the
threshold. -/
theorem fuzzyLookup_cases (store : Store) (gp content : String) :
    ((fuzzyLookup store gp content).1.isSome = true ↔
      mkRat 4 5 ≤ bestScoreOf store gp content) ∧
    (∀ k v, (fuzzyLookup store gp content).1 = some (k, v) →
      jsStartsWith k gp = true ∧ storeGet store k = some v ∧ v ≠ "" ∧
      mkRat 4 5 ≤ similarity (jsSlice content 400) (jsSlice v 400)) := by
  have hinv : ScanInv store content (groupKeysOf store gp)
      (fuzzyScan store content (groupKeysOf store gp) ⟨none, 0⟩) :=
    fuzzyScan_inv store content (groupKeysOf store gp) (groupKeysOf store gp)
      ⟨none, 0⟩ (fun x hx => hx) ⟨fun _ => rfl, fun bk hbk => nomatch hbk⟩
  unfold fuzzyLookup bestScoreOf
  cases hbk : (fuzzyScan store content (groupKeysOf store gp) ⟨none, 0⟩).bestKey with
  | none =>
    have h0 : (fuzzyScan store content (groupKeysOf store gp) ⟨none, 0⟩).bestScore = 0 :=
      hinv.1 hbk
    dsimp only
    rw [h0]
    exact ⟨iff_of_false (by simp) (by decide), fun k v h => nomatch h⟩
  | some bk =>
    obtain ⟨hbkmem, v0, hv0, hv0ne, hscore⟩ := hinv.2 bk hbk
    dsimp only
    by_cases hth : mkRat 4 5 ≤
        (fuzzyScan store content (groupKeysOf store gp) ⟨none, 0⟩).bestScore
    · rw [if_pos hth, hv0]
      dsimp only
      rw [if_neg hv0ne]
      refine ⟨iff_of_true rfl hth, fun k v h => ?_⟩
      have hkv : bk = k ∧ v0 = v := by simpa using Option.some.inj h
      obtain ⟨rfl, rfl⟩ := hkv
      refine ⟨?_, hv0, hv0ne, hscore ▸ hth⟩
      have hmf : bk ∈ storeKeys store ∧ jsStartsWith bk gp = true := by
        simpa [groupKeysOf] using hbkmem
      exact hmf.2
    · rw [if_neg hth]
      exact ⟨iff_of_false (by simp) hth, fun k v h => nomatch h⟩

/-- The ops of `genAndWrite` are its prefix ops plus at most one `set`. -/
theorem genAndWrite_ops (store : Store) (k : String) (ops0 : List StoreOp)
    (res : ExtractResult) (g comp : String) :
    (genAndWrite store k ops0 res g comp).ops = ops0 ∨
    (genAndWrite store k ops0 res g comp).ops = ops0 ++ [StoreOp.set k comp] := by
  unfold genAndWrite
  by_cases h : comp ≠ ""
  · rw [if_pos h]; exact Or.inr rfl
  · rw [if_neg h]; exact Or.inl rfl

/-- The candidate enumeration op `keys` is always in a fuzzy lookup's trace. -/
theorem fuzzyLookup_keys_mem (store : Store) (gp content : String) :
    StoreOp.keys ∈ (fuzzyLookup store gp content).2 := by
  unfold fuzzyLookup
  split
  · split
    · split
      · split <;> exact List.mem_append_left _ (List.mem_cons_self _ _)
      · exact List.mem_append_left _ (List.mem_cons_self _ _)
    · exact List.mem_cons_self _ _
  · exact List.mem_cons_self _ _

/-- The fuzzy path runs — i.e. the store enumeration `keys()` appears in the
trace — exactly when the exact key is unavailable but a non-empty group
prefix and signature source exist. -/
theorem pageFlow_keys_iff (store : Store) (res : ExtractResult) (g comp : String) :
    StoreOp.keys ∈ (pageFlow store res g comp).ops ↔
      (res.cacheKey = none ∧
        (∃ p, res.groupPrefixOpt = some p ∧ p ≠ "") ∧
        (∃ s, res.sigSource = some s ∧ s ≠ "")) := by
  unfold pageFlow
  cases hck : res.cacheKey with
  | some k =>
    dsimp only
    constructor
    · intro hmem
      exfalso
      rcases hv : storeGet store k with - | v
      · rw [hv] at hmem
        dsimp only at hmem
        rcases genAndWrite_ops store k [StoreOp.get k] res g comp with ho | ho <;>
          · rw [ho] at hmem; simp at hmem
      · rw [hv] at hmem
        dsimp only at hmem
        by_cases hvne : v ≠ ""
        · rw [if_pos hvne] at hmem; simp at hmem
        · rw [if_neg hvne] at hmem
          rcases genAndWrite_ops store k [StoreOp.get k] res g comp with ho | ho <;>
            · rw [ho] at hmem; simp at hmem
    · rintro ⟨habs, -, -⟩; cases habs
  | none =>
    dsimp only
    cases hgp : res.groupPrefixOpt with
    | none =>
      dsimp only
      constructor
      · intro hmem; simp at hmem
      · rintro ⟨-, ⟨p, hp, -⟩, -⟩; cases hp
    | some gp =>
      cases hsg : res.sigSource with
      | none =>
        dsimp only
        constructor
        · intro hmem; simp at hmem
        · rintro ⟨-, -, ⟨s, hs, -⟩⟩; cases hs
      | some sg =>
        dsimp only
        by_cases hcond : gp ≠ "" ∧ sg ≠ ""
        · rw [if_pos hcond]
          constructor
          · intro _
            exact ⟨rfl, ⟨gp, rfl, hcond.1⟩, ⟨sg, rfl, hcond.2⟩⟩
          · intro _
            split
            · exact fuzzyLookup_keys_mem store gp res.content
            · exact fuzzyLookup_keys_mem store gp res.content
        · rw [if_neg hcond]
          constructor
          · intro hmem; simp at hmem
          · rintro ⟨-, ⟨p, hp, hpne⟩, ⟨s, hs, hsne⟩⟩
            exact (hcond ⟨(Option.some.inj hp) ▸ hpne, (Option.some.inj hs) ▸ hsne⟩).elim

/-- Outcomes of the flow on the fuzzy path: a hit returns the cached value,
a miss proceeds to generation; the store is unchanged either way. -/
theorem pageFlow_fuzzy_outcome (store : Store) (res : ExtractResult)
    (g comp gp sg : String) (hck : res.cacheKey = none)
    (hgp : res.groupPrefixOpt = some gp) (hgpne : gp ≠ "")
    (hsg : res.sigSource = some sg) (hsgne : sg ≠ "") :
    ((fuzzyLookup store gp res.content).1 = none →
      (pageFlow store res g comp).outcome = genOutcome res g) ∧
    (∀ k v, (fuzzyLookup store gp res.content).1 = some (k, v) →
      (pageFlow store res g comp).outcome = FlowOutcome.fuzzyHit k v) ∧
    (pageFlow store res g comp).finalStore = store := by
  unfold pageFlow
  rw [hck, hgp, hsg]
  dsimp only
  rw [if_pos ⟨hgpne, hsgne⟩]
  cases hfz : (fuzzyLookup store gp res.content).1 with
  | none =>
    dsimp only
    exact ⟨fun _ => rfl, (fun k v h => nomatch h), rfl⟩
  | some p =>
    cases p with
    | mk k0 v0 =>
      dsimp only
      refine ⟨(fun h => nomatch h), (fun k v h => ?_), rfl⟩
      have hkv : k0 = k ∧ v0 = v := by simpa using Option.some.inj h
      obtain ⟨rfl, rfl⟩ := hkv
      rfl

/-- C7: the fuzzy cache path runs only when the exact key is unavailable
but a group prefix and signature source exist; it scores, for every stored
key sharing the group prefix, the word-level Jaccard similarity between the
first 400 characters of the cached content and the first 400 characters of
the current content; it returns a cached value exactly when the maximum
score reaches 0.8 (otherwise the flow proceeds to generation); and the
lookup performs no store writes or removals. -/
theorem fuzzy_cache_lookup_spec (store : Store) (res : ExtractResult)
    (g comp gp content : String) :
    (StoreOp.keys ∈ (pageFlow store res g comp).ops ↔
      (res.cacheKey = none ∧
        (∃ p, res.groupPrefixOpt = some p ∧ p ≠ "") ∧
        (∃ s, res.sigSource = some s ∧ s ≠ ""))) ∧
    (∀ op ∈ (fuzzyLookup store gp content).2,
      op = StoreOp.keys ∨ ∃ k, op = StoreOp.get k) ∧
    ((fuzzyLookup store gp content).1.isSome = true ↔
      mkRat 4 5 ≤ bestScoreOf store gp content) ∧
    (∀ k v, (fuzzyLookup store gp content).1 = some (k, v) →
      jsStartsWith k gp = true ∧ storeGet store k = some v ∧ v ≠ "" ∧
      mkRat 4 5 ≤ similarity (jsSlice content 400) (jsSlice v 400)) ∧
    (∀ k v, k ∈ storeKeys store → jsStartsWith k gp = true →
      storeGet store k = some v → v ≠ "" →
      similarity (jsSlice content 400) (jsSlice v 400) ≤ bestScoreOf store gp content) ∧
    (res.cacheKey = none → ∀ p s, res.groupPrefixOpt = some p → p ≠ "" →
      res.sigSource = some s → s ≠ "" →
      ((fuzzyLookup store p res.content).1 = none →
        (pageFlow store res g comp).outcome = genOutcome res g) ∧
      (∀ k v, (fuzzyLookup store p res.content).1 = some (k, v) →
        (pageFlow store res g comp).outcome = FlowOutcome.fuzzyHit k v) ∧
      (pageFlow store res g comp).finalStore = store) :=
  ⟨pageFlow_keys_iff store res g comp,
    fuzzyLookup_ops_readonly store gp content,
    (fuzzyLookup_cases store gp content).1,
    (fuzzyLookup_cases store gp content).2,
    fun k v hk hsw hget hne =>
      fuzzyScan_ub store content (groupKeysOf store gp) ⟨none, 0⟩ k v
        (List.mem_filter.mpr ⟨hk, hsw⟩) hget hne,
    fun hck p s hgp hgpne hsg hsgne =>
      pageFlow_fuzzy_outcome store res g comp p s hck hgp hgpne hsg hsgne⟩

/-- Store and extraction record for the C7 witness: one cached entry in the
group whose content window matches the current content perfectly. -/
def storeW : Store := [("ai-summary:b1:0:3-4:ff00", "alpha beta gamma delta")]

/-- Extraction record for the C7 witness: degraded (no exact key) but with a
group prefix and signature source. -/
def resW : ExtractResult :=
  ⟨"alpha beta gamma delta", none, some "ai-summary:b1:0:", some "alpha|delta"⟩

theorem fuzzy_cache_lookup_spec_witness :
    (pageFlow storeW resW "G" "C").outcome =
      FlowOutcome.fuzzyHit "ai-summary:b1:0:3-4:ff00" "alpha beta gamma delta" :=
  ((fuzzy_cache_lookup_spec storeW resW "G" "C" "ai-summary:b1:0:"
      "alpha beta gamma delta").2.2.2.2.2
    (by decide) "ai-summary:b1:0:" "alpha|delta" (by decide) (by decide)
    (by decide) (by decide)).2.1
    "ai-summary:b1:0:3-4:ff00" "alpha beta gamma delta" (by decide)

end ReaderPlus
